import Mathlib

/-!
# Verification of the greeting widget (`src/src/App.jsx`)

The component `App` keeps its state in React hooks and changes it only inside
three event handlers (`handleYesClick`, `handleTryOtherOption`,
`moveNoButton`) and one self-rescheduling animation callback (`frame`).
The embedding passes the state explicitly: each handler is a function from the
state of the render it runs in to the state of the next render, together with
the list of calls it issues to the host (audio, confetti, timers).

Values the host supplies are inputs of the handlers:
* a draw of `Math.random()` is a double in [0,1), given by its significand and
  binary exponent; the product `Math.random() * length` is rounded as the IEEE
  double multiplication rounds it (53 significant bits, to nearest, ties to
  even) before `Math.floor` is taken;
* a reading of `Date.now()` is an integer number of milliseconds;
* the audio host is a function telling which audio call throws.
`yesButtonScale` is a rational number and the literal `0.1` is `1/10`.
-/

namespace Valentine

/-! ## Data model -/

/-- A position of the dismiss control: the two percentage strings of
`{ x: "15%", y: "15%" }`. -/
structure Position where
  x : String
  y : String
  deriving DecidableEq, Repr

/-- The catalog `safePositions` (App.jsx, lines 20-33). -/
def safePositions : List Position :=
  [ ⟨"15%", "15%"⟩,
    ⟨"50%", "15%"⟩,
    ⟨"75%", "15%"⟩,
    ⟨"15%", "40%"⟩,
    ⟨"75%", "40%"⟩,
    ⟨"15%", "65%"⟩,
    ⟨"50%", "65%"⟩,
    ⟨"75%", "65%"⟩,
    ⟨"30%", "30%"⟩,
    ⟨"60%", "30%"⟩,
    ⟨"30%", "80%"⟩,
    ⟨"60%", "80%"⟩ ]

/-- A value of `Math.random()`: the double `mant / 2 ^ exp`. Every double `d`
with `0 ≤ d < 1` is of this form with `mant < 2 ^ 53`, `mant < 2 ^ exp` and
`exp ≤ 1074`. -/
structure Draw where
  mant : Nat
  exp : Nat
  deriving DecidableEq, Repr

/-- The number a draw stands for. -/
def Draw.value (d : Draw) : ℚ := (d.mant : ℚ) / (2 : ℚ) ^ d.exp

/-- The draw is a double (the significand has at most 53 bits) and is below 1. -/
def Draw.inRange (d : Draw) : Prop := d.mant < 2 ^ 53 ∧ d.mant < 2 ^ d.exp

instance : DecidablePred Draw.inRange := fun d => by
  unfold Draw.inRange
  infer_instance

/-- The number of low bits of `m` that do not fit a 53-bit significand: `m` is
halved until it is below `2 ^ 53`. The first argument bounds the halvings and
is never reached when it is `m` itself. -/
def excessBits : Nat → Nat → Nat
  | 0, _ => 0
  | fuel + 1, m => if m < 2 ^ 53 then 0 else excessBits fuel (m / 2) + 1

/-- IEEE rounding of an exact result to a double, on the integer `m` that the
result is a multiple `m / 2 ^ e` of: the excess low bits are dropped, to
nearest, a tie going to the even significand. -/
def roundSignificand (m : Nat) : Nat :=
  let s := excessBits m m
  let q := m / 2 ^ s
  let rest := m % 2 ^ s
  if 2 ^ s < 2 * rest ∨ (2 ^ s = 2 * rest ∧ q % 2 = 1) then (q + 1) * 2 ^ s else q * 2 ^ s

/-- The index `Math.floor(Math.random() * n)` for the draw `d`: the exact
product is `d.mant * n / 2 ^ d.exp`, the double product is its rounding, and
the floor of a non-negative number is the integer quotient. -/
def floorTimes (d : Draw) (n : Nat) : Nat :=
  roundSignificand (d.mant * n) / 2 ^ d.exp

/-- The expression `xs[Math.floor(Math.random() * xs.length)]` for the draw
`d`; indexing at or beyond the length gives `undefined` (here `none`). -/
def randomPick {α : Type} (xs : List α) (d : Draw) : Option α :=
  xs[floorTimes d xs.length]?

/-- The optional chaining `lastPosition?.x`: `undefined` when `lastPosition`
is `null`. -/
def optX (p : Option Position) : Option String := p.map Position.x

/-- The optional chaining `lastPosition?.y`. -/
def optY (p : Option Position) : Option String := p.map Position.y

/-- The filter of `moveNoButton` (lines 200-202):
`safePositions.filter (pos => pos.x !== lastPosition?.x || pos.y !== lastPosition?.y)`.
A string is never strictly equal to `undefined`. -/
def availablePositions (lastPosition : Option Position) : List Position :=
  safePositions.filter
    (fun pos => decide (some pos.x ≠ optX lastPosition) || decide (some pos.y ≠ optY lastPosition))

/-! ## Host calls and widget state -/

/-- The calls made on the Web Audio objects. A time argument is recorded as its
offset from `audioContext.currentTime`. -/
inductive AudioCall
  | newAudioContext
  | createOscillator
  | createGain
  | connectOscillator
  | connectGain
  | setFrequency (value offset : ℚ)
  | rampFrequencyExp (value offset : ℚ)
  | setOscillatorType (name : String)
  | setGain (value offset : ℚ)
  | rampGainLinear (value offset : ℚ)
  | rampGainExp (value offset : ℚ)
  | start (offset : ℚ)
  | stop (offset : ℚ)
  deriving DecidableEq, Repr

/-- The options object passed to `confetti`. -/
structure ConfettiOptions where
  particleCount : Nat
  angle : Option Nat
  spread : Nat
  originX : Option ℚ
  originY : Option ℚ
  colors : List String
  shapes : Option (List String)
  scalar : Option ℚ
  deriving DecidableEq, Repr

/-- The closure `frame` of one `handleYesClick` call: the `particleCount` and
the deadline `end` it captured. -/
structure FrameCallback where
  particleCount : Nat
  endTime : Int
  deriving DecidableEq, Repr

/-- A call that leaves the component: to the audio objects, to `confetti`, to
the two host schedulers, or `e.preventDefault()`. -/
inductive Effect
  | audio (call : AudioCall)
  | confetti (options : ConfettiOptions)
  | requestAnimationFrame (callback : FrameCallback)
  | setTimeout (burst : ConfettiOptions) (delay : Nat)
  | preventDefault
  deriving DecidableEq, Repr

/-- The state of the page: the hooks of `App` (lines 7-17) under their source
names, whether `window.audioCtx` is set, the frame callbacks the host still has
to run, and the calls issued so far. `none` in a position is `null` or
`undefined`. -/
structure State where
  showNoButton : Bool
  noButtonPosition : Option Position
  yesClicked : Bool
  yesButtonScale : ℚ
  lastPosition : Option Position
  lastSoundTime : Int
  audioCtx : Bool
  pendingFrames : List FrameCallback
  log : List Effect
  deriving DecidableEq, Repr

/-- The state at mount: the `useState` and `useRef` initial values. -/
def init : State :=
  { showNoButton := false
    noButtonPosition := some ⟨"50%", "50%"⟩
    yesClicked := false
    yesButtonScale := 1
    lastPosition := none
    lastSoundTime := 0
    audioCtx := false
    pendingFrames := []
    log := [] }

/-- What is fixed for a session: the memoised `isMobile`, and the audio host,
which says for each audio call, given every call issued before it, whether the
call throws. -/
structure Config where
  isMobile : Bool
  audioThrows : List Effect → AudioCall → Bool

/-- How a piece of code ends: it returns, or an exception leaves it. -/
inductive Outcome
  | returned
  | threw
  deriving DecidableEq, Repr

/-- A piece of code run for its effect on the state. -/
abbrev JS := State → State × Outcome

/-- Sequencing `m; k`: `k` does not run when `m` throws. -/
def JS.seq (m k : JS) : JS := fun w =>
  match m w with
  | (w1, Outcome.returned) => k w1
  | (w1, Outcome.threw) => (w1, Outcome.threw)

/-- The statement `try { body } catch (e) { handler }`. -/
def JS.tryCatch (body handler : JS) : JS := fun w =>
  match body w with
  | (w1, Outcome.returned) => (w1, Outcome.returned)
  | (w1, Outcome.threw) => handler w1

/-- The empty block. -/
def JS.skip : JS := fun w => (w, Outcome.returned)

/-- A call to the host that does not throw. -/
def emit (e : Effect) : JS := fun w => ({ w with log := w.log ++ [e] }, Outcome.returned)

/-- One call on the audio objects: it throws when the host says so, and is
recorded otherwise. -/
def audioCall (cfg : Config) (c : AudioCall) : JS := fun w =>
  if cfg.audioThrows w.log c then (w, Outcome.threw)
  else ({ w with log := w.log ++ [Effect.audio c] }, Outcome.returned)

/-- A straight-line sequence of audio calls. -/
def audioCalls (cfg : Config) : List AudioCall → JS
  | [] => JS.skip
  | c :: cs => JS.seq (audioCall cfg c) (audioCalls cfg cs)

/-! ## Sound -/

/-- The function `getAudioContext` (lines 66-73): the context is constructed
when `window.audioCtx` is not set, and kept when the constructor returns. -/
def getAudioContext (cfg : Config) : JS := fun w =>
  if w.audioCtx then (w, Outcome.returned)
  else JS.seq (audioCall cfg AudioCall.newAudioContext)
    (fun w1 => ({ w1 with audioCtx := true }, Outcome.returned)) w

/-- The audio calls of the `try` block of `playPopSound` (lines 86-105) that
follow `getAudioContext()`. -/
def popCalls : List AudioCall :=
  [ AudioCall.createOscillator,
    AudioCall.createGain,
    AudioCall.connectOscillator,
    AudioCall.connectGain,
    AudioCall.setFrequency 800 0,
    AudioCall.rampFrequencyExp 400 (1/10),
    AudioCall.setGain (2/10) 0,
    AudioCall.rampGainExp (1/100) (1/10),
    AudioCall.start 0,
    AudioCall.stop (1/10) ]

/-- The guard of `playPopSound` (line 79): `now - lastSoundTime.current < 150`. -/
def cooldownActive (lastSoundTime now : Int) : Bool :=
  decide (now - lastSoundTime < 150)

/-- The function `playPopSound` (lines 76-109) at the clock reading `now`. -/
def playPopSound (cfg : Config) (now : Int) : JS := fun w =>
  if cooldownActive w.lastSoundTime now then (w, Outcome.returned)
  else
    JS.tryCatch
      (JS.seq (getAudioContext cfg) (audioCalls cfg popCalls))
      JS.skip
      { w with lastSoundTime := now }

/-- The array `notes` of `playCelebrationSound` (line 114). -/
def notes : List ℚ := [52325/100, 65925/100, 78399/100, 10465/10]

/-- The body of the `forEach` callback (lines 117-132) for the note `freq` at
position `index`; `startTime` is `index * 0.1` after `currentTime`. -/
def noteCalls (freq : ℚ) (index : Nat) : List AudioCall :=
  let startTime : ℚ := (index : ℚ) * (1/10)
  [ AudioCall.createOscillator,
    AudioCall.createGain,
    AudioCall.connectOscillator,
    AudioCall.connectGain,
    AudioCall.setFrequency freq 0,
    AudioCall.setOscillatorType "sine",
    AudioCall.setGain 0 startTime,
    AudioCall.rampGainLinear (15/100) (startTime + 5/100),
    AudioCall.rampGainExp (1/100) (startTime + 1/2),
    AudioCall.start startTime,
    AudioCall.stop (startTime + 1/2) ]

/-- The audio calls of `notes.forEach(...)`, note after note. -/
def celebrationCalls : List AudioCall :=
  (notes.enum.map (fun p => noteCalls p.2 p.1)).flatten

/-- The function `playCelebrationSound` (lines 111-137). -/
def playCelebrationSound (cfg : Config) : JS :=
  JS.tryCatch
    (JS.seq (getAudioContext cfg) (audioCalls cfg celebrationCalls))
    JS.skip

/-! ## The affirmative action -/

/-- The four colours of the corner bursts. -/
def cornerColors : List String := ["#ff69b4", "#ff1493", "#ff6b9d", "#ffc0cb"]

/-- The first `confetti` call of `frame` (lines 150-156). -/
def leftBurst (particleCount : Nat) : ConfettiOptions :=
  { particleCount := particleCount, angle := some 60, spread := 55,
    originX := some 0, originY := none, colors := cornerColors,
    shapes := none, scalar := none }

/-- The second `confetti` call of `frame` (lines 157-163). -/
def rightBurst (particleCount : Nat) : ConfettiOptions :=
  { particleCount := particleCount, angle := some 120, spread := 55,
    originX := some 1, originY := none, colors := cornerColors,
    shapes := none, scalar := none }

/-- The burst of the `setTimeout` callback (lines 173-180). The comment on
line 171 calls it a heart burst; the call passes `shapes: ["circle"]`. -/
def centreBurst (isMobile : Bool) : ConfettiOptions :=
  { particleCount := if isMobile then 50 else 100, angle := none, spread := 70,
    originX := none, originY := some (6/10), colors := cornerColors ++ ["#ff0000"],
    shapes := some ["circle"], scalar := some (if isMobile then 3/2 else 2) }

/-- The call `requestAnimationFrame(frame)`: the host is called and keeps the
callback. -/
def requestAnimationFrame (cb : FrameCallback) : JS := fun w =>
  ({ w with pendingFrames := w.pendingFrames ++ [cb],
            log := w.log ++ [Effect.requestAnimationFrame cb] }, Outcome.returned)

/-- The closure `frame` (lines 149-168) run when `Date.now()` reads `t`. -/
def frame (cb : FrameCallback) (t : Int) : JS :=
  JS.seq (emit (Effect.confetti (leftBurst cb.particleCount)))
    (JS.seq (emit (Effect.confetti (rightBurst cb.particleCount)))
      (fun w => if t < cb.endTime then requestAnimationFrame cb w else (w, Outcome.returned)))

/-- The closure `frame` as `handleYesClick` creates it when `Date.now()` reads
`t0` on line 147: `particleCount` of line 143 and `end = t0 + 3000`. -/
def celebrationFrame (cfg : Config) (t0 : Int) : FrameCallback :=
  { particleCount := if cfg.isMobile then 3 else 5, endTime := t0 + 3000 }

/-- The handler `handleYesClick` (lines 139-182). `t0` is the reading of
`Date.now()` on line 147 and `tFrame` the reading inside the call `frame()` on
line 169. -/
def handleYesClick (cfg : Config) (t0 tFrame : Int) : JS :=
  JS.seq (fun w => ({ w with yesClicked := true }, Outcome.returned))
    (JS.seq (playCelebrationSound cfg)
      (JS.seq (frame (celebrationFrame cfg t0) tFrame)
        (emit (Effect.setTimeout (centreBurst cfg.isMobile) 300))))

/-! ## The dismiss control -/

/-- The handler `handleTryOtherOption` (lines 184-193) for the draw `r`. -/
def handleTryOtherOption (r : Draw) : JS := fun w =>
  let randomPos := randomPick safePositions r
  ({ w with showNoButton := true,
            yesButtonScale := w.yesButtonScale + 1/10,
            noButtonPosition := randomPos,
            lastPosition := randomPos }, Outcome.returned)

/-- The handler `moveNoButton` (lines 195-210) at the clock reading `now` for
the draw `r`. `lastPosition` is the value of the render the handler belongs
to. -/
def moveNoButton (cfg : Config) (now : Int) (r : Draw) : JS :=
  JS.seq (emit Effect.preventDefault)
    (JS.seq (playPopSound cfg now)
      (fun w =>
        let newPos := randomPick (availablePositions w.lastPosition) r
        ({ w with noButtonPosition := newPos, lastPosition := newPos }, Outcome.returned)))

/-! ## Events -/

/-- What the host can deliver to the page. -/
inductive Event
  | yesClick (t0 tFrame : Int)
  | tryOtherOption (r : Draw)
  | noButtonProximity (now : Int) (r : Draw)
  | animationFrame (t : Int)
  deriving DecidableEq, Repr

/-- One event: the handler bound to it runs (`onClick` of the two buttons of
the prompt, `onMouseEnter` and `onTouchStart` of the dismiss control); on an
animation frame the host runs the oldest callback it holds. -/
def step (cfg : Config) (e : Event) (w : State) : State :=
  match e with
  | Event.yesClick t0 tFrame => (handleYesClick cfg t0 tFrame w).1
  | Event.tryOtherOption r => (handleTryOtherOption r w).1
  | Event.noButtonProximity now r => (moveNoButton cfg now r w).1
  | Event.animationFrame t =>
    match w.pendingFrames with
    | [] => w
    | cb :: rest => (frame cb t { w with pendingFrames := rest }).1

/-- A sequence of events, oldest first. -/
def run (cfg : Config) : State → List Event → State
  | w, [] => w
  | w, e :: es => run cfg (step cfg e w) es

/-- The draw carried by an event is a value of `Math.random()`. -/
def Event.drawOk : Event → Prop
  | Event.tryOtherOption r => r.inRange
  | Event.noButtonProximity _ r => r.inRange
  | _ => True

instance : DecidablePred Event.drawOk := fun e => by
  cases e <;> unfold Event.drawOk <;> infer_instance

/-- The states the page can be in. -/
inductive Reachable (cfg : Config) : State → Prop
  | init : Reachable cfg init
  | step (e : Event) (w : State) : Reachable cfg w → e.drawOk → Reachable cfg (step cfg e w)

/-- The two views: the prompt is rendered while `yesClicked` is false. -/
inductive View
  | prompt
  | accepted
  deriving DecidableEq, Repr

/-- The branch of the conditional on line 267. -/
def view (w : State) : View := if w.yesClicked then View.accepted else View.prompt

/-- The calls of one `handleYesClick` that are not audio calls. -/
def celebrationVisuals (cfg : Config) (t0 tFrame : Int) : List Effect :=
  [ Effect.confetti (leftBurst (celebrationFrame cfg t0).particleCount),
    Effect.confetti (rightBurst (celebrationFrame cfg t0).particleCount) ] ++
  (if tFrame < t0 + 3000 then [Effect.requestAnimationFrame (celebrationFrame cfg t0)] else []) ++
  [ Effect.setTimeout (centreBurst cfg.isMobile) 300 ]

/-- The calls issued between two states of one run. -/
def newCalls (before after : State) : List Effect :=
  after.log.drop before.log.length

/-- The calls of a record that are not audio calls. -/
def visualCalls (l : List Effect) : List Effect :=
  l.filter (fun e => match e with
    | Effect.audio _ => false
    | _ => true)

/-- The event is a click on the affirmative control. -/
def Event.isYesClick : Event → Bool
  | Event.yesClick _ _ => true
  | _ => false

/-- The event is a click on the reveal control. -/
def Event.isTryOtherOption : Event → Bool
  | Event.tryOtherOption _ => true
  | _ => false

/-- The call is `requestAnimationFrame`. -/
def Effect.isFrameRequest : Effect → Bool
  | Effect.requestAnimationFrame _ => true
  | _ => false

/-- The test "differs in x or in y" on two positions, both defined. -/
def differ : Option Position → Option Position → Bool
  | some p, some q => (p.x != q.x) || (p.y != q.y)
  | _, _ => false

/-- The value of `noButtonPosition` after each event of a sequence. -/
def positionTrace (cfg : Config) : State → List Event → List (Option Position)
  | _, [] => []
  | w, e :: es => (step cfg e w).noButtonPosition :: positionTrace cfg (step cfg e w) es

/-- The proximity events with the clock readings and draws of `moves`. -/
def proximityEvents (moves : List (Int × Draw)) : List Event :=
  moves.map (fun m => Event.noButtonProximity m.1 m.2)

/-- The clock readings of the proximity events of a sequence whose
`playPopSound` call passes the guard of line 79 and goes on to the tone, in
order. -/
def attemptTimes (cfg : Config) : State → List Event → List Int
  | _, [] => []
  | w, Event.noButtonProximity now r :: es =>
    (if cooldownActive w.lastSoundTime now then [] else [now]) ++
      attemptTimes cfg (step cfg (Event.noButtonProximity now r) w) es
  | w, e :: es => attemptTimes cfg (step cfg e w) es

/-- The call is a call on the audio objects. -/
def Effect.isAudio : Effect → Bool
  | Effect.audio _ => true
  | _ => false

/-- The clock readings of the proximity events of a sequence during which at
least one audio call was issued, read off the record of calls. -/
def soundTimes (cfg : Config) : State → List Event → List Int
  | _, [] => []
  | w, Event.noButtonProximity now r :: es =>
    (if (newCalls w (step cfg (Event.noButtonProximity now r) w)).any Effect.isAudio
      then [now] else []) ++
      soundTimes cfg (step cfg (Event.noButtonProximity now r) w) es
  | w, e :: es => soundTimes cfg (step cfg e w) es

/-- The clock readings of the proximity events of a sequence that issued the
whole tone: the calls of the event end with the ten calls of `popCalls`, from
`createOscillator` to `oscillator.stop`. -/
def toneTimes (cfg : Config) : State → List Event → List Int
  | _, [] => []
  | w, Event.noButtonProximity now r :: es =>
    (if (popCalls.map Effect.audio).isSuffixOf
        (newCalls w (step cfg (Event.noButtonProximity now r) w))
      then [now] else []) ++
      toneTimes cfg (step cfg (Event.noButtonProximity now r) w) es
  | w, e :: es => toneTimes cfg (step cfg e w) es

/-- The value of `lastSoundTime.current` after each event of a sequence. -/
def lastSoundTrace (cfg : Config) : State → List Event → List Int
  | _, [] => []
  | w, e :: es => (step cfg e w).lastSoundTime :: lastSoundTrace cfg (step cfg e w) es

/-- The session `cfg` with an audio host none of whose calls throws. -/
def Config.quiet (cfg : Config) : Config := { cfg with audioThrows := fun _ _ => false }

/-- A draw for each index below 11: the middle of the i-th eleventh of the
unit interval, as a multiple of `2 ^ -53`. -/
def middleDraw (i : Nat) : Draw := { mant := (2 * i + 1) * 2 ^ 53 / 22, exp := 53 }

/-- The draw 0. -/
def Draw.zero : Draw := { mant := 0, exp := 53 }

/-- The draw 1/2. -/
def Draw.half : Draw := { mant := 2 ^ 52, exp := 53 }

/-- The draw 1/8. -/
def Draw.eighth : Draw := { mant := 2 ^ 50, exp := 53 }

/-- The draw 1228254443828317 / 2 ^ 52, the double next below 3/11. -/
def Draw.belowThreeElevenths : Draw := { mant := 1228254443828317, exp := 52 }

/-- A session on a large viewport whose audio calls all return. -/
def desktop : Config := { isMobile := false, audioThrows := fun _ _ => false }

/-- A session on a large viewport whose audio calls all throw. -/
def noAudio : Config := { isMobile := false, audioThrows := fun _ _ => true }

/-! ## Lemmas on the rounded product and the random pick -/

theorem excessBits_small (fuel m : Nat) (h : m < 2 ^ 53) : excessBits fuel m = 0 := by
  cases fuel with
  | zero => rfl
  | succ k => simp only [excessBits, h, if_true]

theorem excessBits_le (fuel m : Nat) (h : 2 ^ 53 ≤ m) (hf : m < 2 ^ (53 + fuel)) :
    2 ^ 52 * 2 ^ excessBits fuel m ≤ m := by
  induction fuel generalizing m with
  | zero => simp at hf; omega
  | succ k ih =>
    have hnot : ¬ m < 2 ^ 53 := by omega
    simp only [excessBits, hnot, if_false]
    have hhalf : m / 2 < 2 ^ (53 + k) := by
      have : 2 ^ (53 + (k + 1)) = 2 * 2 ^ (53 + k) := by rw [← Nat.add_assoc, Nat.pow_succ]; ring
      omega
    by_cases hm : 2 ^ 53 ≤ m / 2
    · have := ih (m / 2) hm hhalf
      rw [Nat.pow_succ]
      omega
    · have h0 : excessBits k (m / 2) = 0 := excessBits_small k _ (by omega)
      rw [h0]
      norm_num
      norm_num at h
      omega

theorem excessBits_self_le (m : Nat) (h : 2 ^ 53 ≤ m) : 2 ^ 52 * 2 ^ excessBits m m ≤ m := by
  apply excessBits_le m m h
  calc m < 2 ^ m := Nat.lt_two_pow m
    _ ≤ 2 ^ (53 + m) := Nat.pow_le_pow_right (by decide) (by omega)

theorem roundSignificand_near (m : Nat) :
    2 * roundSignificand m ≤ 2 * m + 2 ^ excessBits m m := by
  unfold roundSignificand
  have hdm := Nat.div_add_mod m (2 ^ excessBits m m)
  have hmul : 2 ^ excessBits m m * (m / 2 ^ excessBits m m) = m / 2 ^ excessBits m m * 2 ^ excessBits m m := Nat.mul_comm _ _
  simp only []
  split
  · rename_i hc
    rw [Nat.add_mul, Nat.one_mul]
    rcases hc with hc | hc <;> omega
  · omega

theorem roundSignificand_snap (m a : Nat) (hdvd : 2 ^ excessBits m m ∣ a) :
    (a ≤ m → a ≤ roundSignificand m) ∧ (m ≤ a → roundSignificand m ≤ a) := by
  obtain ⟨c, hc⟩ := hdvd
  have hpos : 0 < 2 ^ excessBits m m := Nat.two_pow_pos _
  have hdm := Nat.div_add_mod m (2 ^ excessBits m m)
  have hlt := Nat.mod_lt m hpos
  have hmul : 2 ^ excessBits m m * (m / 2 ^ excessBits m m) = m / 2 ^ excessBits m m * 2 ^ excessBits m m := Nat.mul_comm _ _
  constructor
  · intro ham
    have hcq : c ≤ m / 2 ^ excessBits m m := by
      rw [Nat.le_div_iff_mul_le hpos, Nat.mul_comm, ← hc]; exact ham
    have h1 : a ≤ m / 2 ^ excessBits m m * 2 ^ excessBits m m := by
      rw [hc, Nat.mul_comm]; exact Nat.mul_le_mul_right _ hcq
    unfold roundSignificand
    simp only []
    split
    · rw [Nat.add_mul, Nat.one_mul]; omega
    · exact h1
  · intro hma
    unfold roundSignificand
    simp only []
    by_cases hrest : m % 2 ^ excessBits m m = 0
    · have hcond : ¬ (2 ^ excessBits m m < 2 * (m % 2 ^ excessBits m m) ∨
          (2 ^ excessBits m m = 2 * (m % 2 ^ excessBits m m) ∧ m / 2 ^ excessBits m m % 2 = 1)) := by
        rw [hrest]; omega
      rw [if_neg hcond]
      omega
    · have hqc : m / 2 ^ excessBits m m < c := by
        rw [Nat.div_lt_iff_lt_mul hpos, Nat.mul_comm, ← hc]
        have hne : m ≠ a := by
          intro heq
          have hdiv : 2 ^ excessBits m m ∣ m := ⟨c, heq.trans hc⟩
          exact hrest (Nat.mod_eq_zero_of_dvd hdiv)
        omega
      have h1 : (m / 2 ^ excessBits m m + 1) * 2 ^ excessBits m m ≤ a := by
        rw [hc, Nat.mul_comm (2 ^ excessBits m m) c]; exact Nat.mul_le_mul_right _ hqc
      split
      · exact h1
      · rw [Nat.add_mul, Nat.one_mul] at h1; omega

theorem floorTimes_lt (d : Draw) (n : Nat) (hd : d.inRange) (hn : 0 < n) :
    floorTimes d n < n := by
  obtain ⟨h53, hexp⟩ := hd
  unfold floorTimes
  rw [Nat.div_lt_iff_lt_mul (Nat.two_pow_pos _)]
  have hnear := roundSignificand_near (d.mant * n)
  have hm1 : d.mant * n + n ≤ 2 ^ d.exp * n := by
    have : (d.mant + 1) * n ≤ 2 ^ d.exp * n := Nat.mul_le_mul_right _ hexp
    rw [Nat.add_mul, Nat.one_mul] at this; exact this
  have hs : 2 ^ excessBits (d.mant * n) (d.mant * n) < 2 * n := by
    by_cases hsmall : d.mant * n < 2 ^ 53
    · rw [excessBits_small _ _ hsmall]; omega
    · have h1 := excessBits_self_le (d.mant * n) (by omega)
      have h2 : d.mant * n < 2 ^ 53 * n := Nat.mul_lt_mul_of_pos_right h53 hn
      have h3 : (2:Nat) ^ 53 = 2 * 2 ^ 52 := by norm_num
      rw [h3] at h2
      by_contra hcon
      have h4 : 2 ^ 52 * (2 * n) ≤ 2 ^ 52 * 2 ^ excessBits (d.mant * n) (d.mant * n) :=
        Nat.mul_le_mul_left _ (by omega)
      have h5 : 2 ^ 52 * (2 * n) = 2 * 2 ^ 52 * n := by ring
      omega
  rw [Nat.mul_comm n]
  omega

theorem excessBits_lt_exp (d : Draw) (n i : Nat) (hn : n ≤ 2 ^ 52) (hi : i < n)
    (hhi : d.mant * n < (i + 1) * 2 ^ d.exp) :
    2 ^ excessBits (d.mant * n) (d.mant * n) ∣ 2 ^ d.exp := by
  by_cases hsmall : d.mant * n < 2 ^ 53
  · rw [excessBits_small _ _ hsmall]; simp
  · have h1 := excessBits_self_le (d.mant * n) (by omega)
    apply Nat.pow_dvd_pow
    by_contra hcon
    have hle : 2 ^ d.exp ≤ 2 ^ excessBits (d.mant * n) (d.mant * n) :=
      Nat.pow_le_pow_right (by decide) (by omega)
    have h2 : (i + 1) * 2 ^ d.exp ≤ 2 ^ 52 * 2 ^ excessBits (d.mant * n) (d.mant * n) :=
      Nat.mul_le_mul (by omega) hle
    omega

theorem floorTimes_interval (d : Draw) (n i : Nat) (hn : n ≤ 2 ^ 52) (hi : i < n)
    (hlo : i * 2 ^ d.exp ≤ d.mant * n) (hhi : d.mant * n < (i + 1) * 2 ^ d.exp) :
    floorTimes d n = i ∨
      (floorTimes d n = i + 1 ∧ roundSignificand (d.mant * n) = (i + 1) * 2 ^ d.exp) := by
  have hdvd := excessBits_lt_exp d n i hn hi hhi
  have hpos : 0 < 2 ^ d.exp := Nat.two_pow_pos _
  have h1 := (roundSignificand_snap (d.mant * n) (i * 2 ^ d.exp) (Dvd.dvd.mul_left hdvd i)).1 hlo
  have h2 := (roundSignificand_snap (d.mant * n) ((i + 1) * 2 ^ d.exp)
    (Dvd.dvd.mul_left hdvd (i + 1))).2 (Nat.le_of_lt hhi)
  unfold floorTimes
  by_cases heq : roundSignificand (d.mant * n) = (i + 1) * 2 ^ d.exp
  · right
    exact ⟨by rw [heq]; exact Nat.mul_div_cancel _ hpos, heq⟩
  · left
    apply Nat.div_eq_of_lt_le
    · exact h1
    · omega

theorem value_bounds_iff (d : Draw) (n i : Nat) (hn : 0 < n) :
    ((i : ℚ) / (n : ℚ) ≤ d.value ↔ i * 2 ^ d.exp ≤ d.mant * n) ∧
    (d.value < ((i : ℚ) + 1) / (n : ℚ) ↔ d.mant * n < (i + 1) * 2 ^ d.exp) := by
  have hnq : (0 : ℚ) < (n : ℚ) := by exact_mod_cast hn
  have hpq : (0 : ℚ) < (2 : ℚ) ^ d.exp := by positivity
  unfold Draw.value
  constructor
  · rw [div_le_div_iff₀ hnq hpq]
    constructor
    · intro h; exact_mod_cast h
    · intro h; exact_mod_cast h
  · rw [div_lt_div_iff₀ hpq hnq]
    constructor
    · intro h; exact_mod_cast h
    · intro h; exact_mod_cast h

theorem value_range (d : Draw) (hd : d.inRange) : 0 ≤ d.value ∧ d.value < 1 := by
  have hpq : (0 : ℚ) < (2 : ℚ) ^ d.exp := by positivity
  unfold Draw.value
  refine ⟨by positivity, ?_⟩
  rw [div_lt_one hpq]
  exact_mod_cast hd.2

theorem randomPick_mem {α : Type} (xs : List α) (d : Draw) (hd : d.inRange)
    (hne : 0 < xs.length) : ∃ a, a ∈ xs ∧ randomPick xs d = some a := by
  have hlt := floorTimes_lt d xs.length hd hne
  refine ⟨xs.get ⟨floorTimes d xs.length, hlt⟩, List.get_mem xs _ hlt, ?_⟩
  unfold randomPick
  simp [List.getElem?_eq_getElem hlt]

/-! ## Lemmas on the candidate list -/

theorem availablePositions_none : availablePositions none = safePositions := by decide

theorem availablePositions_some_of_mem :
    ∀ p ∈ safePositions,
      availablePositions (some p) = safePositions.filter (fun q => decide (q ≠ p)) ∧
      (availablePositions (some p)).length = 11 := by decide

theorem mem_availablePositions (last : Option Position) (q : Position)
    (h : q ∈ availablePositions last) :
    q ∈ safePositions ∧ ∀ p, last = some p → (q.x ≠ p.x ∨ q.y ≠ p.y) := by
  unfold availablePositions at h
  rw [List.mem_filter] at h
  refine ⟨h.1, ?_⟩
  intro p hp
  subst hp
  have h2 := h.2
  simp [optX, optY] at h2
  exact h2

theorem availablePositions_length_pos (last : Option Position)
    (h : last = none ∨ ∃ p, p ∈ safePositions ∧ last = some p) :
    0 < (availablePositions last).length := by
  rcases h with h | ⟨p, hp, h⟩
  · subst h
    rw [availablePositions_none]
    decide
  · subst h
    rw [(availablePositions_some_of_mem p hp).2]
    decide

/-! ## What the handlers change -/

theorem audioCall_spec (cfg : Config) (c : AudioCall) (w : State) :
    ∃ cs : List AudioCall, ∃ o : Outcome,
      audioCall cfg c w = ({ w with log := w.log ++ cs.map Effect.audio }, o) := by
  unfold audioCall
  by_cases h : cfg.audioThrows w.log c = true
  · exact ⟨[], Outcome.threw, by simp [h]⟩
  · exact ⟨[c], Outcome.returned, by simp [h]⟩

theorem audioCalls_spec (cfg : Config) (cs : List AudioCall) (w : State) :
    ∃ ds : List AudioCall, ∃ o : Outcome,
      audioCalls cfg cs w = ({ w with log := w.log ++ ds.map Effect.audio }, o) := by
  induction cs generalizing w with
  | nil => exact ⟨[], Outcome.returned, by simp [audioCalls, JS.skip]⟩
  | cons c cs ih =>
    obtain ⟨d1, o1, h1⟩ := audioCall_spec cfg c w
    cases o1 with
    | threw => exact ⟨d1, Outcome.threw, by simp [audioCalls, JS.seq, h1]⟩
    | returned =>
      obtain ⟨d2, o2, h2⟩ := ih { w with log := w.log ++ d1.map Effect.audio }
      exact ⟨d1 ++ d2, o2, by simp [audioCalls, JS.seq, h1, h2]⟩

theorem getAudioContext_spec (cfg : Config) (w : State) :
    ∃ ds : List AudioCall, ∃ a : Bool, ∃ o : Outcome,
      getAudioContext cfg w =
        ({ w with log := w.log ++ ds.map Effect.audio, audioCtx := a }, o) := by
  unfold getAudioContext
  by_cases h : w.audioCtx = true
  · refine ⟨[], true, Outcome.returned, ?_⟩
    obtain ⟨_, _, _, _, _, _, _, _, _⟩ := w
    simp at h
    simp [h]
  · obtain ⟨d1, o1, h1⟩ := audioCall_spec cfg AudioCall.newAudioContext w
    cases o1 with
    | threw =>
      refine ⟨d1, false, Outcome.threw, ?_⟩
      simp only [h, JS.seq, h1]
      simp at h
      simp [h]
    | returned => exact ⟨d1, true, Outcome.returned, by simp [h, JS.seq, h1]⟩

/-- The guarded audio block of both sound functions returns, whatever the host
does, and changes nothing but the call record and `window.audioCtx`. -/
theorem guardedAudio_spec (cfg : Config) (cs : List AudioCall) (w : State) :
    ∃ ds : List AudioCall, ∃ a : Bool,
      JS.tryCatch (JS.seq (getAudioContext cfg) (audioCalls cfg cs)) JS.skip w =
        ({ w with log := w.log ++ ds.map Effect.audio, audioCtx := a }, Outcome.returned) := by
  obtain ⟨d1, a, o1, h1⟩ := getAudioContext_spec cfg w
  cases o1 with
  | threw => exact ⟨d1, a, by simp [JS.tryCatch, JS.seq, JS.skip, h1]⟩
  | returned =>
    obtain ⟨d2, o2, h2⟩ :=
      audioCalls_spec cfg cs { w with log := w.log ++ d1.map Effect.audio, audioCtx := a }
    refine ⟨d1 ++ d2, a, ?_⟩
    cases o2 <;> simp [JS.tryCatch, JS.seq, JS.skip, h1, h2]

theorem playPopSound_spec (cfg : Config) (now : Int) (w : State) :
    ∃ ds : List AudioCall, ∃ a : Bool,
      playPopSound cfg now w =
        ({ w with log := w.log ++ ds.map Effect.audio, audioCtx := a,
                  lastSoundTime := if cooldownActive w.lastSoundTime now then w.lastSoundTime else now },
          Outcome.returned) := by
  unfold playPopSound
  by_cases h : cooldownActive w.lastSoundTime now = true
  · exact ⟨[], w.audioCtx, by simp [h]⟩
  · obtain ⟨ds, a, hg⟩ := guardedAudio_spec cfg popCalls { w with lastSoundTime := now }
    exact ⟨ds, a, by simp [h, hg]⟩

theorem moveNoButton_spec (cfg : Config) (now : Int) (r : Draw) (w : State) :
    ∃ ds : List AudioCall, ∃ a : Bool,
      moveNoButton cfg now r w =
        ({ w with log := w.log ++ [Effect.preventDefault] ++ ds.map Effect.audio, audioCtx := a,
                  lastSoundTime := if cooldownActive w.lastSoundTime now then w.lastSoundTime else now,
                  noButtonPosition := randomPick (availablePositions w.lastPosition) r,
                  lastPosition := randomPick (availablePositions w.lastPosition) r },
          Outcome.returned) := by
  obtain ⟨ds, a, hp⟩ := playPopSound_spec cfg now { w with log := w.log ++ [Effect.preventDefault] }
  exact ⟨ds, a, by simp [moveNoButton, JS.seq, emit, hp]⟩

theorem handleYesClick_spec (cfg : Config) (t0 tFrame : Int) (w : State) :
    ∃ ds : List AudioCall, ∃ a : Bool,
      handleYesClick cfg t0 tFrame w =
        ({ w with yesClicked := true, audioCtx := a,
                  log := w.log ++ ds.map Effect.audio ++ celebrationVisuals cfg t0 tFrame,
                  pendingFrames := w.pendingFrames ++
                    (if tFrame < t0 + 3000 then [celebrationFrame cfg t0] else []) },
          Outcome.returned) := by
  obtain ⟨ds, a, hg⟩ := guardedAudio_spec cfg celebrationCalls { w with yesClicked := true }
  refine ⟨ds, a, ?_⟩
  by_cases ht : tFrame < t0 + 3000
  · simp [handleYesClick, playCelebrationSound, JS.seq, hg, frame, emit, requestAnimationFrame,
      celebrationVisuals, celebrationFrame, ht]
  · simp [handleYesClick, playCelebrationSound, JS.seq, hg, frame, emit, requestAnimationFrame,
      celebrationVisuals, celebrationFrame, ht]

theorem frame_spec (cb : FrameCallback) (t : Int) (w : State) :
    frame cb t w =
      ({ w with log := w.log ++ [Effect.confetti (leftBurst cb.particleCount),
                                 Effect.confetti (rightBurst cb.particleCount)] ++
                  (if t < cb.endTime then [Effect.requestAnimationFrame cb] else []),
                pendingFrames := w.pendingFrames ++ (if t < cb.endTime then [cb] else []) },
        Outcome.returned) := by
  by_cases ht : t < cb.endTime <;>
    simp [frame, JS.seq, emit, requestAnimationFrame, ht]

/-- What one event does to the five hooks the view reads. -/
theorem step_hooks (cfg : Config) (e : Event) (w : State) :
    match e with
    | Event.yesClick _ _ =>
      (step cfg e w).showNoButton = w.showNoButton ∧
      (step cfg e w).noButtonPosition = w.noButtonPosition ∧
      (step cfg e w).lastPosition = w.lastPosition ∧
      (step cfg e w).yesButtonScale = w.yesButtonScale ∧
      (step cfg e w).yesClicked = true
    | Event.tryOtherOption r =>
      (step cfg e w).showNoButton = true ∧
      (step cfg e w).noButtonPosition = randomPick safePositions r ∧
      (step cfg e w).lastPosition = randomPick safePositions r ∧
      (step cfg e w).yesButtonScale = w.yesButtonScale + 1/10 ∧
      (step cfg e w).yesClicked = w.yesClicked
    | Event.noButtonProximity _ r =>
      (step cfg e w).showNoButton = w.showNoButton ∧
      (step cfg e w).noButtonPosition = randomPick (availablePositions w.lastPosition) r ∧
      (step cfg e w).lastPosition = randomPick (availablePositions w.lastPosition) r ∧
      (step cfg e w).yesButtonScale = w.yesButtonScale ∧
      (step cfg e w).yesClicked = w.yesClicked
    | Event.animationFrame _ =>
      (step cfg e w).showNoButton = w.showNoButton ∧
      (step cfg e w).noButtonPosition = w.noButtonPosition ∧
      (step cfg e w).lastPosition = w.lastPosition ∧
      (step cfg e w).yesButtonScale = w.yesButtonScale ∧
      (step cfg e w).yesClicked = w.yesClicked := by
  cases e with
  | yesClick t0 tFrame =>
    obtain ⟨ds, a, hs⟩ := handleYesClick_spec cfg t0 tFrame w
    simp [step, hs]
  | tryOtherOption r => simp [step, handleTryOtherOption]
  | noButtonProximity now r =>
    obtain ⟨ds, a, hs⟩ := moveNoButton_spec cfg now r w
    simp [step, hs]
  | animationFrame t =>
    simp only [step]
    cases h : w.pendingFrames with
    | nil => simp
    | cons cb rest => simp [frame_spec]

/-! ## The position selector -/

theorem differ_of_mem_available (p q : Position) (h : q ∈ availablePositions (some p)) :
    differ (some p) (some q) = true := by
  have h2 := (mem_availablePositions (some p) q h).2 p rfl
  rcases h2 with hx | hy
  · simp [differ, Ne.symm hx]
  · simp [differ, Ne.symm hy]

theorem positionTrace_chain (cfg : Config) (moves : List (Int × Draw))
    (hm : ∀ m ∈ moves, m.2.inRange) (w : State) (p : Position)
    (hp : p ∈ safePositions) (hpos : w.noButtonPosition = some p)
    (hlast : w.lastPosition = some p) :
    List.Chain (fun a b => differ a b = true) w.noButtonPosition
      (positionTrace cfg w (proximityEvents moves)) := by
  induction moves generalizing w p with
  | nil => exact List.Chain.nil
  | cons m ms ih =>
    have hm0 := hm m (List.mem_cons_self m ms)
    have hlen : 0 < (availablePositions w.lastPosition).length :=
      availablePositions_length_pos _ (Or.inr ⟨p, hp, hlast⟩)
    obtain ⟨q, hq, hpick⟩ := randomPick_mem (availablePositions w.lastPosition) m.2 hm0 hlen
    obtain ⟨ds, a, hs⟩ := moveNoButton_spec cfg m.1 m.2 w
    have hstep1 : (step cfg (Event.noButtonProximity m.1 m.2) w).noButtonPosition = some q := by
      simp [step, hs, hpick]
    have hstep2 : (step cfg (Event.noButtonProximity m.1 m.2) w).lastPosition = some q := by
      simp [step, hs, hpick]
    have hq2 : q ∈ availablePositions (some p) := by rw [← hlast]; exact hq
    have hqs : q ∈ safePositions := (mem_availablePositions _ q hq).1
    simp only [proximityEvents, List.map_cons, positionTrace]
    refine List.Chain.cons ?_ ?_
    · rw [hpos, hstep1]
      exact differ_of_mem_available p q hq2
    · exact ih (fun m1 h1 => hm m1 (List.mem_cons_of_mem m h1)) _ q hqs hstep1 hstep2

/-- C1: after a reveal (`handleTryOtherOption`) with any draw in [0,1), followed
by any sequence of proximity events (`moveNoButton`) with any draws in [0,1),
every position selected is defined and differs in x or in y from the position
selected immediately before it. The draws are doubles and the index is the
floor of the double product. -/
theorem C1_position_never_repeats (cfg : Config) (w : State) (r0 : Draw)
    (moves : List (Int × Draw)) (h0 : r0.inRange)
    (hm : ∀ m ∈ moves, m.2.inRange) :
    List.Chain (fun a b => differ a b = true)
      (step cfg (Event.tryOtherOption r0) w).noButtonPosition
      (positionTrace cfg (step cfg (Event.tryOtherOption r0) w) (proximityEvents moves)) := by
  obtain ⟨p, hp, hpick⟩ := randomPick_mem safePositions r0 h0 (by decide)
  exact positionTrace_chain cfg moves hm _ p hp
    (by simp [step, handleTryOtherOption, hpick]) (by simp [step, handleTryOtherOption, hpick])

/-- C2: for every draw r in [0,1) (a double) and every stored last position
(null or a catalog entry), the index `floor (r * length)`, taken of the double
product, is within the bounds of the list it indexes, in `handleTryOtherOption`
and in `moveNoButton`, and the position either handler stores is defined and is
an entry of `safePositions`; the catalog has twelve entries. -/
theorem C2_pick_is_catalog_entry (cfg : Config) (now : Int) (r : Draw) (w : State)
    (hr : r.inRange)
    (hlast : w.lastPosition = none ∨ ∃ p, p ∈ safePositions ∧ w.lastPosition = some p) :
    (0 ≤ r.value ∧ r.value < 1) ∧
    safePositions.length = 12 ∧
    floorTimes r safePositions.length < safePositions.length ∧
    (∃ p, p ∈ safePositions ∧ (handleTryOtherOption r w).1.noButtonPosition = some p) ∧
    floorTimes r (availablePositions w.lastPosition).length <
      (availablePositions w.lastPosition).length ∧
    (∃ p, p ∈ safePositions ∧ (moveNoButton cfg now r w).1.noButtonPosition = some p) := by
  have hlen := availablePositions_length_pos w.lastPosition hlast
  refine ⟨value_range r hr, by decide, floorTimes_lt r _ hr (by decide), ?_,
    floorTimes_lt r _ hr hlen, ?_⟩
  · obtain ⟨p, hp, hpick⟩ := randomPick_mem safePositions r hr (by decide)
    exact ⟨p, hp, by simp [handleTryOtherOption, hpick]⟩
  · obtain ⟨q, hq, hpick⟩ := randomPick_mem (availablePositions w.lastPosition) r hr hlen
    obtain ⟨ds, a, hs⟩ := moveNoButton_spec cfg now r w
    exact ⟨q, (mem_availablePositions _ q hq).1, by simp [hs, hpick]⟩

theorem availablePositions_cover :
    ∀ p ∈ safePositions, (availablePositions (some p)).Nodup ∧
      ∀ q ∈ safePositions, q ≠ p →
        ∃ i, i < 11 ∧ (availablePositions (some p))[i]? = some q := by
  decide

theorem middleDraw_selects : ∀ i, i < 11 → (middleDraw i).inRange ∧ floorTimes (middleDraw i) 11 = i := by
  decide

/-- C3 (amended): for every last position p of the catalog, the candidate list
of `moveNoButton` is the catalog with p removed and nothing else removed, in
catalog order; it has 11 distinct entries; every other catalog entry is one of
them and is selected by some draw; and a draw r (a double) with
i/11 ≤ r < (i+1)/11 selects the i-th candidate, except that it selects the next
candidate, i+1, when the double product r * 11 rounds up to exactly i + 1. -/
theorem C3_candidates_are_catalog_without_last (p : Position) (hp : p ∈ safePositions) :
    availablePositions (some p) = safePositions.filter (fun q => decide (q ≠ p)) ∧
    (availablePositions (some p)).length = 11 ∧
    (availablePositions (some p)).Nodup ∧
    (∀ q, q ∈ safePositions → q ≠ p →
      ∃ i, i < 11 ∧ (availablePositions (some p))[i]? = some q ∧
        ∀ (cfg : Config) (now : Int) (w : State), w.lastPosition = some p →
          (moveNoButton cfg now (middleDraw i) w).1.noButtonPosition = some q) ∧
    (∀ (cfg : Config) (now : Int) (w : State) (i : Nat) (r : Draw),
      w.lastPosition = some p → r.inRange → i < 11 →
      (i : ℚ) / 11 ≤ r.value → r.value < ((i : ℚ) + 1) / 11 →
      ((moveNoButton cfg now r w).1.noButtonPosition = (availablePositions (some p))[i]? ∧
        floorTimes r 11 = i) ∨
      ((moveNoButton cfg now r w).1.noButtonPosition = (availablePositions (some p))[i + 1]? ∧
        floorTimes r 11 = i + 1 ∧ i + 1 < 11 ∧
        roundSignificand (r.mant * 11) = (i + 1) * 2 ^ r.exp)) := by
  obtain ⟨hfilter, hlen⟩ := availablePositions_some_of_mem p hp
  obtain ⟨hnd, hcover⟩ := availablePositions_cover p hp
  have hpos : ∀ (cfg : Config) (now : Int) (w : State) (r : Draw), w.lastPosition = some p →
      (moveNoButton cfg now r w).1.noButtonPosition =
        (availablePositions (some p))[floorTimes r 11]? := by
    intro cfg now w r hlast
    obtain ⟨ds, a, hs⟩ := moveNoButton_spec cfg now r w
    simp [hs, hlast, randomPick, hlen]
  refine ⟨hfilter, hlen, hnd, ?_, ?_⟩
  · intro q hq hqp
    obtain ⟨i, hi, hget⟩ := hcover q hq hqp
    refine ⟨i, hi, hget, ?_⟩
    intro cfg now w hlast
    rw [hpos cfg now w (middleDraw i) hlast, (middleDraw_selects i hi).2, hget]
  · intro cfg now w i r hlast hr hi hlo hhi
    have hb := value_bounds_iff r 11 i (by decide)
    have hlo2 : i * 2 ^ r.exp ≤ r.mant * 11 := hb.1.mp (by exact_mod_cast hlo)
    have hhi2 : r.mant * 11 < (i + 1) * 2 ^ r.exp := hb.2.mp (by exact_mod_cast hhi)
    have hlt := floorTimes_lt r 11 hr (by decide)
    rcases floorTimes_interval r 11 i (by decide) hi hlo2 hhi2 with h | ⟨h, hround⟩
    · left
      exact ⟨by rw [hpos cfg now w r hlast, h], h⟩
    · right
      exact ⟨by rw [hpos cfg now w r hlast, h], h, by omega, hround⟩

/-! ## The pop sound -/

theorem newCalls_append (w w1 : State) (l : List Effect) (h : w1.log = w.log ++ l) :
    newCalls w w1 = l := by
  simp [newCalls, h]

theorem step_lastSoundTime (cfg : Config) (e : Event) (w : State) :
    (step cfg e w).lastSoundTime =
      match e with
      | Event.noButtonProximity now _ =>
        if cooldownActive w.lastSoundTime now then w.lastSoundTime else now
      | _ => w.lastSoundTime := by
  cases e with
  | yesClick t0 tFrame =>
    obtain ⟨ds, a, hs⟩ := handleYesClick_spec cfg t0 tFrame w
    simp [step, hs]
  | tryOtherOption r => simp [step, handleTryOtherOption]
  | noButtonProximity now r =>
    obtain ⟨ds, a, hs⟩ := moveNoButton_spec cfg now r w
    simp [step, hs]
  | animationFrame t =>
    simp only [step]
    cases h : w.pendingFrames with
    | nil => rfl
    | cons cb rest =>
      by_cases ht : t < cb.endTime <;>
        simp [frame, JS.seq, emit, requestAnimationFrame, ht]

theorem attemptTimes_spaced (cfg : Config) (es : List Event) (w : State) :
    (∀ t ∈ attemptTimes cfg w es, w.lastSoundTime + 150 ≤ t) ∧
    List.Pairwise (fun a b => a + 150 ≤ b) (attemptTimes cfg w es) := by
  induction es generalizing w with
  | nil => simp [attemptTimes]
  | cons e es ih =>
    have hl := step_lastSoundTime cfg e w
    obtain ⟨ih1, ih2⟩ := ih (step cfg e w)
    cases e with
    | noButtonProximity now r =>
      simp only at hl
      by_cases hc : cooldownActive w.lastSoundTime now = true
      · rw [if_pos hc] at hl
        rw [hl] at ih1
        simp only [attemptTimes, hc, if_true, List.nil_append]
        exact ⟨ih1, ih2⟩
      · rw [if_neg hc] at hl
        rw [hl] at ih1
        have hge : w.lastSoundTime + 150 ≤ now := by
          simp [cooldownActive] at hc
          omega
        simp only [attemptTimes, hc, List.singleton_append]
        refine ⟨?_, List.Pairwise.cons ih1 ih2⟩
        intro t ht
        rcases List.mem_cons.mp ht with h | h
        · rw [h]; exact hge
        · have := ih1 t h
          omega
    | yesClick t0 tFrame =>
      simp only at hl
      rw [hl] at ih1
      simpa only [attemptTimes] using And.intro ih1 ih2
    | tryOtherOption r =>
      simp only at hl
      rw [hl] at ih1
      simpa only [attemptTimes] using And.intro ih1 ih2
    | animationFrame t =>
      simp only at hl
      rw [hl] at ih1
      simpa only [attemptTimes] using And.intro ih1 ih2

theorem pairwise_window (l : List Int) (h : List.Pairwise (fun a b => a + 150 ≤ b) l) (a : Int) :
    (l.filter (fun t => decide (a ≤ t ∧ t < a + 150))).length ≤ 1 := by
  induction l with
  | nil => simp
  | cons x xs ih =>
    rw [List.pairwise_cons] at h
    by_cases hx : a ≤ x ∧ x < a + 150
    · have hnone : xs.filter (fun t => decide (a ≤ t ∧ t < a + 150)) = [] := by
        rw [List.filter_eq_nil_iff]
        intro t ht
        have := h.1 t ht
        simp only [decide_eq_true_eq, not_and, not_lt]
        intro _
        omega
      rw [List.filter_cons, if_pos (by simpa using hx), hnone]
      simp
    · have := ih h.2
      rw [List.filter_cons, if_neg (by simpa using hx)]
      exact this

theorem moveNoButton_blocked (cfg : Config) (now : Int) (r : Draw) (w : State)
    (h : cooldownActive w.lastSoundTime now = true) :
    (moveNoButton cfg now r w).1.log = w.log ++ [Effect.preventDefault] := by
  simp [moveNoButton, JS.seq, emit, playPopSound, h]

theorem moveNoButton_tone (cfg : Config) (hq : ∀ l c, cfg.audioThrows l c = false)
    (now : Int) (r : Draw) (w : State) (h : cooldownActive w.lastSoundTime now = false) :
    (moveNoButton cfg now r w).1.log =
      w.log ++ ([Effect.preventDefault] ++
        (if w.audioCtx then [] else [Effect.audio AudioCall.newAudioContext])) ++
        popCalls.map Effect.audio := by
  by_cases ha : w.audioCtx = true <;>
    simp [moveNoButton, JS.seq, emit, playPopSound, h, JS.tryCatch, getAudioContext, audioCall,
      audioCalls, popCalls, JS.skip, hq, ha]

theorem any_isAudio_of_suffix (l : List Effect)
    (h : (popCalls.map Effect.audio).isSuffixOf l = true) : l.any Effect.isAudio = true := by
  rw [List.isSuffixOf_iff_suffix] at h
  obtain ⟨t, ht⟩ := h
  rw [← ht, List.any_append]
  simp [popCalls, Effect.isAudio]

theorem toneTimes_sublist (cfg : Config) (es : List Event) (w : State) :
    (toneTimes cfg w es).Sublist (soundTimes cfg w es) := by
  induction es generalizing w with
  | nil => simp [toneTimes, soundTimes]
  | cons e es ih =>
    cases e with
    | noButtonProximity now r =>
      simp only [toneTimes, soundTimes]
      apply List.Sublist.append _ (ih _)
      by_cases hsuf : (popCalls.map Effect.audio).isSuffixOf
          (newCalls w (step cfg (Event.noButtonProximity now r) w)) = true
      · rw [if_pos hsuf, if_pos (any_isAudio_of_suffix _ hsuf)]
      · rw [if_neg hsuf]
        exact List.nil_sublist _
    | yesClick t0 tFrame => simpa only [toneTimes, soundTimes] using ih _
    | tryOtherOption r => simpa only [toneTimes, soundTimes] using ih _
    | animationFrame t => simpa only [toneTimes, soundTimes] using ih _

theorem soundTimes_sublist (cfg : Config) (es : List Event) (w : State) :
    (soundTimes cfg w es).Sublist (attemptTimes cfg w es) := by
  induction es generalizing w with
  | nil => simp [attemptTimes, soundTimes]
  | cons e es ih =>
    cases e with
    | noButtonProximity now r =>
      simp only [attemptTimes, soundTimes]
      apply List.Sublist.append _ (ih _)
      by_cases hc : cooldownActive w.lastSoundTime now = true
      · have hn : newCalls w (step cfg (Event.noButtonProximity now r) w) =
            [Effect.preventDefault] :=
          newCalls_append _ _ _ (moveNoButton_blocked cfg now r w hc)
        rw [hn, if_pos hc]
        simp [Effect.isAudio]
      · rw [if_neg hc]
        split
        · exact List.Sublist.refl _
        · exact List.nil_sublist _
    | yesClick t0 tFrame => simpa only [attemptTimes, soundTimes] using ih _
    | tryOtherOption r => simpa only [attemptTimes, soundTimes] using ih _
    | animationFrame t => simpa only [attemptTimes, soundTimes] using ih _

/-- C4: in every sequence of events (with timestamps non-decreasing or not),
any two `playPopSound` calls that pass the cooldown check have timestamps at
least 150 ms apart, the later call having the larger one. The proximity events
during which an audio call is issued at all, as the record of calls shows them,
are among those that pass the check, and the events that issue the whole tone
are among these; hence every window of 150 ms holds the timestamp of at most
one event that issues any audio call, and of at most one that plays a tone. -/
theorem C4_pop_sound_rate_limited (cfg : Config) (w : State) (es : List Event) (a : Int) :
    List.Pairwise (fun t1 t2 => t1 + 150 ≤ t2) (attemptTimes cfg w es) ∧
    ((attemptTimes cfg w es).filter (fun t => decide (a ≤ t ∧ t < a + 150))).length ≤ 1 ∧
    (soundTimes cfg w es).Sublist (attemptTimes cfg w es) ∧
    List.Pairwise (fun t1 t2 => t1 + 150 ≤ t2) (soundTimes cfg w es) ∧
    ((soundTimes cfg w es).filter (fun t => decide (a ≤ t ∧ t < a + 150))).length ≤ 1 ∧
    (toneTimes cfg w es).Sublist (soundTimes cfg w es) ∧
    List.Pairwise (fun t1 t2 => t1 + 150 ≤ t2) (toneTimes cfg w es) ∧
    ((toneTimes cfg w es).filter (fun t => decide (a ≤ t ∧ t < a + 150))).length ≤ 1 := by
  have h1 := (attemptTimes_spaced cfg es w).2
  have h2 := List.Pairwise.sublist (soundTimes_sublist cfg es w) h1
  have h3 := List.Pairwise.sublist (toneTimes_sublist cfg es w) h2
  exact ⟨h1, pairwise_window _ h1 a, soundTimes_sublist cfg es w, h2, pairwise_window _ h2 a,
    toneTimes_sublist cfg es w, h3, pairwise_window _ h3 a⟩

theorem spaced_events_play (cfg : Config) (moves : List (Int × Draw)) (w : State)
    (hfirst : ∀ m ∈ moves.head?, w.lastSoundTime + 150 ≤ m.1)
    (hgap : List.Chain' (fun m1 m2 : Int × Draw => m1.1 + 150 < m2.1) moves) :
    attemptTimes cfg w (proximityEvents moves) = moves.map Prod.fst ∧
    lastSoundTrace cfg w (proximityEvents moves) = moves.map Prod.fst ∧
    ((∀ l c, cfg.audioThrows l c = false) →
      toneTimes cfg w (proximityEvents moves) = moves.map Prod.fst) := by
  induction moves generalizing w with
  | nil => exact ⟨rfl, rfl, fun _ => rfl⟩
  | cons m ms ih =>
    have h1 : w.lastSoundTime + 150 ≤ m.1 := hfirst m (by simp)
    have hc : cooldownActive w.lastSoundTime m.1 = false := by
      simp [cooldownActive]
      omega
    have hl := step_lastSoundTime cfg (Event.noButtonProximity m.1 m.2) w
    simp only [hc, Bool.false_eq_true, if_false] at hl
    have hrest := ih (step cfg (Event.noButtonProximity m.1 m.2) w)
      (by
        intro m2 hm2
        rw [hl]
        cases ms with
        | nil => simp at hm2
        | cons m3 ms3 =>
          simp at hm2
          subst hm2
          have := (List.chain'_cons.mp hgap).1
          omega)
      (List.Chain'.tail hgap)
    simp only [proximityEvents, List.map_cons, attemptTimes, lastSoundTrace, toneTimes, hc]
      at hrest ⊢
    refine ⟨by simp [hrest.1], by rw [hl, hrest.2.1], ?_⟩
    intro hq
    have hlog := moveNoButton_tone cfg hq m.1 m.2 w hc
    have hn : newCalls w (step cfg (Event.noButtonProximity m.1 m.2) w) =
        ([Effect.preventDefault] ++
          (if w.audioCtx then [] else [Effect.audio AudioCall.newAudioContext])) ++
          popCalls.map Effect.audio :=
      newCalls_append _ _ _ (by rw [← List.append_assoc]; exact hlog)
    have hsuf : (popCalls.map Effect.audio).isSuffixOf
        (newCalls w (step cfg (Event.noButtonProximity m.1 m.2) w)) = true := by
      rw [List.isSuffixOf_iff_suffix, hn]
      exact List.suffix_append _ _
    rw [if_pos hsuf, hrest.2.2 hq]
    rfl

/-- C5: for every sequence of proximity events, begun while the last-played
timestamp is still 0, in which each event's timestamp is more than 150 ms after
the preceding event's (the clock readings are those of `Date.now()`,
milliseconds since 1970, so the first is at least 150), `playPopSound` goes on
to the tone on every event of the sequence, the first included: every event
passes the cooldown check, every event stores its own timestamp as the
last-played one, and with an audio host that does not throw every event issues
the whole tone, from `createOscillator` to `oscillator.stop`. -/
theorem C5_spaced_events_all_play (cfg : Config) (w : State) (moves : List (Int × Draw))
    (hw : w.lastSoundTime = 0)
    (hfirst : ∀ m ∈ moves.head?, 150 ≤ m.1)
    (hgap : List.Chain' (fun m1 m2 : Int × Draw => m1.1 + 150 < m2.1) moves) :
    attemptTimes cfg w (proximityEvents moves) = moves.map Prod.fst ∧
    lastSoundTrace cfg w (proximityEvents moves) = moves.map Prod.fst ∧
    toneTimes cfg.quiet w (proximityEvents moves) = moves.map Prod.fst ∧
    soundTimes cfg.quiet w (proximityEvents moves) = moves.map Prod.fst := by
  have hf : ∀ m ∈ moves.head?, w.lastSoundTime + 150 ≤ m.1 := by
    intro m hm
    have := hfirst m hm
    omega
  have h1 := spaced_events_play cfg moves w hf hgap
  have h2 := spaced_events_play cfg.quiet moves w hf hgap
  have htone := h2.2.2 (fun _ _ => rfl)
  refine ⟨h1.1, h1.2.1, htone, ?_⟩
  apply List.Sublist.antisymm
  · rw [← h2.1]
    exact soundTimes_sublist cfg.quiet _ w
  · rw [← htone]
    exact toneTimes_sublist cfg.quiet _ w

/-! ## The accepted flag -/

theorem run_yesClicked (cfg : Config) (es : List Event) (w : State)
    (h : w.yesClicked = true) : (run cfg w es).yesClicked = true := by
  induction es generalizing w with
  | nil => exact h
  | cons e es ih =>
    apply ih
    have hs := step_hooks cfg e w
    cases e <;> simp only at hs
    · exact hs.2.2.2.2
    · rw [hs.2.2.2.2]; exact h
    · rw [hs.2.2.2.2]; exact h
    · rw [hs.2.2.2.2]; exact h

/-- C6: the accepted flag is one-way. Once `yesClicked` is true it is true
after every further event and after every sequence of events, so the view
stays ACCEPTED and does not return to PROMPT; and an event that turns the flag
from false to true is a `handleYesClick`. -/
theorem C6_accepted_is_one_way (cfg : Config) (w : State) (e : Event) (es : List Event) :
    (w.yesClicked = true →
      (step cfg e w).yesClicked = true ∧ (run cfg w es).yesClicked = true ∧
        view (run cfg w es) = View.accepted) ∧
    (w.yesClicked = false → (step cfg e w).yesClicked = true →
      ∃ t0 tFrame, e = Event.yesClick t0 tFrame) := by
  constructor
  · intro h
    have h1 : (run cfg w [e]).yesClicked = true := run_yesClicked cfg [e] w h
    have h2 := run_yesClicked cfg es w h
    exact ⟨h1, h2, by simp [view, h2]⟩
  · intro h h1
    have hs := step_hooks cfg e w
    cases e with
    | yesClick t0 tFrame => exact ⟨t0, tFrame, rfl⟩
    | tryOtherOption r =>
      simp only at hs
      rw [hs.2.2.2.2, h] at h1
      exact absurd h1 (by decide)
    | noButtonProximity now r =>
      simp only at hs
      rw [hs.2.2.2.2, h] at h1
      exact absurd h1 (by decide)
    | animationFrame t =>
      simp only at hs
      rw [hs.2.2.2.2, h] at h1
      exact absurd h1 (by decide)

/-! ## The celebration -/

theorem visualCalls_append (l1 l2 : List Effect) :
    visualCalls (l1 ++ l2) = visualCalls l1 ++ visualCalls l2 := by
  simp [visualCalls]

theorem visualCalls_audio (ds : List AudioCall) : visualCalls (ds.map Effect.audio) = [] := by
  induction ds with
  | nil => rfl
  | cons d ds ih =>
    simp only [visualCalls, List.map_cons, List.filter_cons] at ih ⊢
    simp [ih]

theorem visualCalls_celebrationVisuals (cfg : Config) (t0 tFrame : Int) :
    visualCalls (celebrationVisuals cfg t0 tFrame) = celebrationVisuals cfg t0 tFrame := by
  by_cases ht : tFrame < t0 + 3000 <;> simp [visualCalls, celebrationVisuals, ht]

/-- In a session whose audio calls all throw, the `try` block of
`playCelebrationSound` is left by an exception. -/
theorem celebration_block_throws :
    (JS.seq (getAudioContext noAudio) (audioCalls noAudio celebrationCalls) init).2 =
      Outcome.threw := by
  simp [JS.seq, getAudioContext, audioCall, noAudio, init]

/-- C7: whatever the audio host does inside `playCelebrationSound` (any call,
the construction of the context included, may throw), `handleYesClick` returns
without an exception, sets `yesClicked` to true, and issues the same calls
other than audio calls, and keeps the same frame callbacks, as with a host
whose audio calls all return: the two corner bursts, the frame request when
the deadline has not passed, and `setTimeout` of the centre burst at 300 ms. -/
theorem C7_celebration_survives_audio_failure (cfg : Config) (t0 tFrame : Int) (w : State) :
    (handleYesClick cfg t0 tFrame w).2 = Outcome.returned ∧
    (handleYesClick cfg t0 tFrame w).1.yesClicked = true ∧
    visualCalls (newCalls w (handleYesClick cfg t0 tFrame w).1) =
      visualCalls (newCalls w
        (handleYesClick { cfg with audioThrows := fun _ _ => false } t0 tFrame w).1) ∧
    (handleYesClick cfg t0 tFrame w).1.pendingFrames =
      (handleYesClick { cfg with audioThrows := fun _ _ => false } t0 tFrame w).1.pendingFrames ∧
    visualCalls (newCalls w (handleYesClick cfg t0 tFrame w).1) =
      [ Effect.confetti (leftBurst (if cfg.isMobile then 3 else 5)),
        Effect.confetti (rightBurst (if cfg.isMobile then 3 else 5)) ] ++
      (if tFrame < t0 + 3000 then [Effect.requestAnimationFrame (celebrationFrame cfg t0)]
       else []) ++
      [ Effect.setTimeout (centreBurst cfg.isMobile) 300 ] := by
  obtain ⟨ds, a, hs⟩ := handleYesClick_spec cfg t0 tFrame w
  obtain ⟨ds2, a2, hs2⟩ :=
    handleYesClick_spec { cfg with audioThrows := fun _ _ => false } t0 tFrame w
  have hv : ∀ (cs : List AudioCall) (c : Config),
      visualCalls (cs.map Effect.audio ++ celebrationVisuals c t0 tFrame) =
        celebrationVisuals c t0 tFrame := by
    intro cs c
    rw [visualCalls_append, visualCalls_audio, visualCalls_celebrationVisuals, List.nil_append]
  have hn : newCalls w (handleYesClick cfg t0 tFrame w).1 =
      ds.map Effect.audio ++ celebrationVisuals cfg t0 tFrame :=
    newCalls_append _ _ _ (by simp [hs])
  have hn2 : newCalls w
      (handleYesClick { cfg with audioThrows := fun _ _ => false } t0 tFrame w).1 =
      ds2.map Effect.audio ++
        celebrationVisuals { cfg with audioThrows := fun _ _ => false } t0 tFrame :=
    newCalls_append _ _ _ (by simp [hs2])
  refine ⟨by simp [hs], by simp [hs], ?_, ?_, ?_⟩
  · rw [hn, hn2, hv, hv]
    rfl
  · simp only [hs, hs2]
    rfl
  · rw [hn, hv]
    rfl

/-! ## The particle-burst loop -/

theorem step_frames_without_yesClick (cfg : Config) (e : Event) (w : State)
    (he : e.isYesClick = false)
    (hw : w.pendingFrames = [] ∧ ∀ c ∈ w.log, c.isFrameRequest = false) :
    (step cfg e w).pendingFrames = [] ∧ ∀ c ∈ (step cfg e w).log, c.isFrameRequest = false := by
  cases e with
  | yesClick t0 tFrame => simp [Event.isYesClick] at he
  | tryOtherOption r => simpa [step, handleTryOtherOption] using hw
  | noButtonProximity now r =>
    obtain ⟨ds, a, hs⟩ := moveNoButton_spec cfg now r w
    refine ⟨by simp [step, hs, hw.1], ?_⟩
    intro c hc
    simp only [step, hs, List.mem_append, List.mem_singleton, List.mem_map] at hc
    rcases hc with (hc | hc) | ⟨d, _, hd⟩
    · exact hw.2 c hc
    · rw [hc]; rfl
    · rw [← hd]; rfl
  | animationFrame t => simpa [step, hw.1] using hw

theorem run_frames_without_yesClick (cfg : Config) (es : List Event) (w : State)
    (hes : ∀ e ∈ es, e.isYesClick = false)
    (hw : w.pendingFrames = [] ∧ ∀ c ∈ w.log, c.isFrameRequest = false) :
    (run cfg w es).pendingFrames = [] ∧ ∀ c ∈ (run cfg w es).log, c.isFrameRequest = false := by
  induction es generalizing w with
  | nil => exact hw
  | cons e es ih =>
    exact ih (step cfg e w) (fun e1 h1 => hes e1 (List.mem_cons_of_mem e h1))
      (step_frames_without_yesClick cfg e w (hes e (List.mem_cons_self e es)) hw)

/-- C8: the callback `frame` that `handleYesClick` creates at trigger time t0
has the deadline t0 + 3000. Run at clock time t it requests a further animation
frame if and only if t < t0 + 3000, and the host then holds it again; so a
callback running once the window has elapsed requests nothing. In a run from
the initial state in which `handleYesClick` has not been invoked, no frame is
requested and the host holds no callback. -/
theorem C8_frame_loop_is_time_boxed (cfg : Config) (t0 tFrame t : Int) (w : State)
    (es : List Event) (hes : ∀ e ∈ es, e.isYesClick = false) :
    (handleYesClick cfg t0 tFrame w).1.pendingFrames =
      w.pendingFrames ++ (if tFrame < t0 + 3000 then [celebrationFrame cfg t0] else []) ∧
    (celebrationFrame cfg t0).endTime = t0 + 3000 ∧
    ((∃ c, c ∈ newCalls w (frame (celebrationFrame cfg t0) t w).1 ∧ c.isFrameRequest = true) ↔
      t < t0 + 3000) ∧
    (frame (celebrationFrame cfg t0) t w).1.pendingFrames =
      w.pendingFrames ++ (if t < t0 + 3000 then [celebrationFrame cfg t0] else []) ∧
    (run cfg init es).pendingFrames = [] ∧
    (∀ c ∈ (run cfg init es).log, c.isFrameRequest = false) := by
  obtain ⟨ds, a, hs⟩ := handleYesClick_spec cfg t0 tFrame w
  have hrun := run_frames_without_yesClick cfg es init hes (by simp [init])
  have hn : newCalls w (frame (celebrationFrame cfg t0) t w).1 =
      [Effect.confetti (leftBurst (celebrationFrame cfg t0).particleCount),
       Effect.confetti (rightBurst (celebrationFrame cfg t0).particleCount)] ++
      (if t < t0 + 3000 then [Effect.requestAnimationFrame (celebrationFrame cfg t0)] else []) :=
    newCalls_append _ _ _ (by simp [frame_spec, celebrationFrame])
  refine ⟨by simp [hs], rfl, ?_, by simp [frame_spec, celebrationFrame], hrun.1, hrun.2⟩
  rw [hn]
  by_cases ht : t < t0 + 3000
  · simp only [ht, if_true, iff_true]
    exact ⟨Effect.requestAnimationFrame (celebrationFrame cfg t0), by simp, rfl⟩
  · simp only [ht, if_false, iff_false, List.append_nil]
    rintro ⟨c, hc, hreq⟩
    simp only [List.mem_cons, List.mem_singleton, List.not_mem_nil, or_false] at hc
    rcases hc with hc | hc <;> rw [hc] at hreq <;> simp [Effect.isFrameRequest] at hreq

/-! ## The growth factor -/

/-- C9 (amended): `handleTryOtherOption` adds 1/10 to `yesButtonScale` and
`moveNoButton` leaves it unchanged, so after any sequence of events the factor
is its starting value plus one tenth of the number of reveal clicks in the
sequence: from the initial state, 1 + k/10 for k reveal clicks. -/
theorem C9_scale_counts_reveal_clicks (cfg : Config) (w : State) (es : List Event) :
    (∀ r, (step cfg (Event.tryOtherOption r) w).yesButtonScale = w.yesButtonScale + 1/10) ∧
    (∀ now r, (step cfg (Event.noButtonProximity now r) w).yesButtonScale = w.yesButtonScale) ∧
    (run cfg w es).yesButtonScale =
      w.yesButtonScale + ((es.countP Event.isTryOtherOption : Nat) : ℚ) / 10 ∧
    (run cfg init es).yesButtonScale = 1 + ((es.countP Event.isTryOtherOption : Nat) : ℚ) / 10 := by
  have hrun : ∀ (l : List Event) (v : State), (run cfg v l).yesButtonScale =
      v.yesButtonScale + ((l.countP Event.isTryOtherOption : Nat) : ℚ) / 10 := by
    intro l
    induction l with
    | nil => intro v; simp [run]
    | cons e l ih =>
      intro v
      have hs := step_hooks cfg e v
      rw [run, ih (step cfg e v)]
      cases e <;> simp only at hs <;> rw [hs.2.2.2.1] <;>
        simp [List.countP_cons, Event.isTryOtherOption]
      ring
  refine ⟨fun r => (step_hooks cfg (Event.tryOtherOption r) w).2.2.2.1,
    fun now r => (step_hooks cfg (Event.noButtonProximity now r) w).2.2.2.1, hrun es w, ?_⟩
  rw [hrun es init]
  rfl

/-! ## The position of the dismiss control -/

theorem reachable_position (cfg : Config) (w : State) (h : Reachable cfg w) :
    (w.showNoButton = false ∧ w.noButtonPosition = init.noButtonPosition ∧
      w.lastPosition = none) ∨
    (∃ p, p ∈ safePositions ∧ w.noButtonPosition = some p ∧ w.lastPosition = some p) := by
  induction h with
  | init => exact Or.inl ⟨rfl, rfl, rfl⟩
  | step e v _ hd ih =>
    have hs := step_hooks cfg e v
    cases e with
    | yesClick t0 tFrame =>
      simp only at hs
      rw [hs.1, hs.2.1, hs.2.2.1]
      exact ih
    | animationFrame t =>
      simp only at hs
      rw [hs.1, hs.2.1, hs.2.2.1]
      exact ih
    | tryOtherOption r =>
      simp only at hs
      obtain ⟨p, hp, hpick⟩ := randomPick_mem safePositions r hd (by decide)
      exact Or.inr ⟨p, hp, by rw [hs.2.1, hpick], by rw [hs.2.2.1, hpick]⟩
    | noButtonProximity now r =>
      simp only at hs
      have hlast : v.lastPosition = none ∨ ∃ p, p ∈ safePositions ∧ v.lastPosition = some p := by
        rcases ih with h1 | ⟨p, hp, _, h2⟩
        · exact Or.inl h1.2.2
        · exact Or.inr ⟨p, hp, h2⟩
      obtain ⟨q, hq, hpick⟩ := randomPick_mem (availablePositions v.lastPosition) r hd
        (availablePositions_length_pos _ hlast)
      exact Or.inr ⟨q, (mem_availablePositions _ q hq).1, by rw [hs.2.1, hpick],
        by rw [hs.2.2.1, hpick]⟩

/-- C10 (amended): in every reachable state in which the dismiss control is
shown (`showNoButton` is true), `noButtonPosition` is one of the twelve safe
positions of the catalog; in every reachable state it is either such a
position or still the value it has at mount, (50%, 50%). -/
theorem C10_shown_position_is_safe (cfg : Config) (w : State) (h : Reachable cfg w) :
    (w.showNoButton = true → ∃ p, p ∈ safePositions ∧ w.noButtonPosition = some p) ∧
    (w.noButtonPosition = some ⟨"50%", "50%"⟩ ∨
      ∃ p, p ∈ safePositions ∧ w.noButtonPosition = some p) := by
  rcases reachable_position cfg w h with h1 | ⟨p, hp, h2, _⟩
  · refine ⟨?_, Or.inl h1.2.1⟩
    intro hshow
    rw [h1.1] at hshow
    exact absurd hshow (by decide)
  · exact ⟨fun _ => ⟨p, hp, h2⟩, Or.inr ⟨p, hp, h2⟩⟩

/-! ## Concrete instances -/

theorem C1_witness :
    Draw.zero.inRange ∧
    (∀ m ∈ [((1000 : Int), Draw.zero), (2000, Draw.half)], m.2.inRange) ∧
    List.Chain (fun a b => differ a b = true)
      (step desktop (Event.tryOtherOption Draw.zero) init).noButtonPosition
      (positionTrace desktop (step desktop (Event.tryOtherOption Draw.zero) init)
        (proximityEvents [(1000, Draw.zero), (2000, Draw.half)])) :=
  ⟨by decide, by decide,
    C1_position_never_repeats desktop init Draw.zero [(1000, Draw.zero), (2000, Draw.half)]
      (by decide) (by decide)⟩

theorem C2_witness :
    (Draw.half.inRange ∧ init.lastPosition = none) ∧
    (∃ p, p ∈ safePositions ∧
      (handleTryOtherOption Draw.half init).1.noButtonPosition = some p) ∧
    (∃ p, p ∈ safePositions ∧
      (moveNoButton noAudio 1000 Draw.half init).1.noButtonPosition = some p) :=
  ⟨⟨by decide, rfl⟩,
    (C2_pick_is_catalog_entry noAudio 1000 Draw.half init (by decide) (Or.inl rfl)).2.2.2.1,
    (C2_pick_is_catalog_entry noAudio 1000 Draw.half init (by decide) (Or.inl rfl)).2.2.2.2.2⟩

/-- C3 (as stated) fails: the draw 1228254443828317 / 2 ^ 52 lies in
[2/11, 3/11), its exact product with 11 is 3 - 2 ^ -52, which the double
multiplication rounds to 3, so with the last position (15%, 15%) `moveNoButton`
selects candidate 3, (75%, 40%), and not candidate 2, (15%, 40%). -/
theorem C3_counterexample :
    Draw.belowThreeElevenths.inRange ∧
    (2 : ℚ) / 11 ≤ Draw.belowThreeElevenths.value ∧
    Draw.belowThreeElevenths.value < ((2 : ℚ) + 1) / 11 ∧
    (availablePositions (some ⟨"15%", "15%"⟩))[2]? = some ⟨"15%", "40%"⟩ ∧
    floorTimes Draw.belowThreeElevenths 11 = 3 ∧
    (moveNoButton desktop 1000 Draw.belowThreeElevenths
      { init with lastPosition := some ⟨"15%", "15%"⟩ }).1.noButtonPosition =
      some ⟨"75%", "40%"⟩ := by
  have hb := value_bounds_iff Draw.belowThreeElevenths 11 2 (by decide)
  have hfl : floorTimes Draw.belowThreeElevenths 11 = 3 := by decide
  refine ⟨by decide, ?_, ?_, by decide, hfl, ?_⟩
  · have h := hb.1.mpr (by decide)
    exact_mod_cast h
  · have h := hb.2.mpr (by decide)
    exact_mod_cast h
  · obtain ⟨ds, a, hs⟩ := moveNoButton_spec desktop 1000 Draw.belowThreeElevenths
      { init with lastPosition := some ⟨"15%", "15%"⟩ }
    have hlen : (availablePositions (some ⟨"15%", "15%"⟩)).length = 11 := by decide
    have hget : (availablePositions (some ⟨"15%", "15%"⟩))[3]? = some ⟨"75%", "40%"⟩ := by
      decide
    simp only [hs, randomPick, hlen, hfl, hget]

theorem C3_witness :
    ((⟨"50%", "15%"⟩ : Position) ∈ safePositions ∧ Draw.eighth.inRange ∧
      ((1 : Nat) : ℚ) / 11 ≤ Draw.eighth.value ∧
      Draw.eighth.value < (((1 : Nat) : ℚ) + 1) / 11) ∧
    (availablePositions (some ⟨"50%", "15%"⟩)).length = 11 ∧
    (((moveNoButton desktop 1000 Draw.eighth
        { init with lastPosition := some ⟨"50%", "15%"⟩ }).1.noButtonPosition =
        (availablePositions (some ⟨"50%", "15%"⟩))[1]? ∧
      floorTimes Draw.eighth 11 = 1) ∨
    ((moveNoButton desktop 1000 Draw.eighth
        { init with lastPosition := some ⟨"50%", "15%"⟩ }).1.noButtonPosition =
        (availablePositions (some ⟨"50%", "15%"⟩))[1 + 1]? ∧
      floorTimes Draw.eighth 11 = 1 + 1 ∧ 1 + 1 < 11 ∧
      roundSignificand (Draw.eighth.mant * 11) = (1 + 1) * 2 ^ Draw.eighth.exp)) :=
  have hlo : ((1 : Nat) : ℚ) / 11 ≤ Draw.eighth.value :=
    by exact_mod_cast (value_bounds_iff Draw.eighth 11 1 (by decide)).1.mpr (by decide)
  have hhi : Draw.eighth.value < (((1 : Nat) : ℚ) + 1) / 11 :=
    by exact_mod_cast (value_bounds_iff Draw.eighth 11 1 (by decide)).2.mpr (by decide)
  ⟨⟨by decide, by decide, hlo, hhi⟩,
    (C3_candidates_are_catalog_without_last ⟨"50%", "15%"⟩ (by decide)).2.1,
    (C3_candidates_are_catalog_without_last ⟨"50%", "15%"⟩ (by decide)).2.2.2.2
      desktop 1000 { init with lastPosition := some ⟨"50%", "15%"⟩ } 1 Draw.eighth rfl
      (by decide) (by decide) hlo hhi⟩

theorem C5_witness :
    (init.lastSoundTime = 0 ∧
      (∀ m ∈ [((1000 : Int), Draw.zero), (1151, Draw.zero), (1400, Draw.half)].head?,
        150 ≤ m.1) ∧
      List.Chain' (fun m1 m2 : Int × Draw => m1.1 + 150 < m2.1)
        [((1000 : Int), Draw.zero), (1151, Draw.zero), (1400, Draw.half)]) ∧
    attemptTimes noAudio init
      (proximityEvents [(1000, Draw.zero), (1151, Draw.zero), (1400, Draw.half)]) =
      [1000, 1151, 1400] ∧
    lastSoundTrace noAudio init
      (proximityEvents [(1000, Draw.zero), (1151, Draw.zero), (1400, Draw.half)]) =
      [1000, 1151, 1400] ∧
    toneTimes noAudio.quiet init
      (proximityEvents [(1000, Draw.zero), (1151, Draw.zero), (1400, Draw.half)]) =
      [1000, 1151, 1400] ∧
    soundTimes noAudio.quiet init
      (proximityEvents [(1000, Draw.zero), (1151, Draw.zero), (1400, Draw.half)]) =
      [1000, 1151, 1400] :=
  ⟨⟨rfl, by simp, by simp⟩,
    C5_spaced_events_all_play noAudio init
      [(1000, Draw.zero), (1151, Draw.zero), (1400, Draw.half)] rfl (by simp) (by simp)⟩

theorem C6_witness :
    (step desktop (Event.yesClick 5 6) init).yesClicked = true ∧
    view (run desktop (step desktop (Event.yesClick 5 6) init)
      [Event.tryOtherOption Draw.zero, Event.noButtonProximity 1000 Draw.zero,
        Event.animationFrame 7]) = View.accepted ∧
    init.yesClicked = false ∧
    (∃ t0 tFrame, Event.yesClick 5 6 = Event.yesClick t0 tFrame) :=
  have h : (step desktop (Event.yesClick 5 6) init).yesClicked = true :=
    (step_hooks desktop (Event.yesClick 5 6) init).2.2.2.2
  ⟨h,
    ((C6_accepted_is_one_way desktop (step desktop (Event.yesClick 5 6) init)
      (Event.tryOtherOption Draw.zero)
      [Event.tryOtherOption Draw.zero, Event.noButtonProximity 1000 Draw.zero,
        Event.animationFrame 7]).1 h).2.2,
    rfl,
    (C6_accepted_is_one_way desktop init (Event.yesClick 5 6) []).2 rfl h⟩

theorem C8_witness :
    (∀ e ∈ [Event.tryOtherOption Draw.zero, Event.noButtonProximity 1000 Draw.zero,
        Event.animationFrame 7], e.isYesClick = false) ∧
    ((∃ c, c ∈ newCalls init (frame (celebrationFrame desktop 5) 3005 init).1 ∧
      c.isFrameRequest = true) ↔ (3005 : Int) < 5 + 3000) ∧
    (run desktop init
      [Event.tryOtherOption Draw.zero, Event.noButtonProximity 1000 Draw.zero,
        Event.animationFrame 7]).pendingFrames = [] :=
  ⟨by decide,
    (C8_frame_loop_is_time_boxed desktop 5 6 3005 init
      [Event.tryOtherOption Draw.zero, Event.noButtonProximity 1000 Draw.zero,
        Event.animationFrame 7] (by decide)).2.2.1,
    (C8_frame_loop_is_time_boxed desktop 5 6 3005 init
      [Event.tryOtherOption Draw.zero, Event.noButtonProximity 1000 Draw.zero,
        Event.animationFrame 7] (by decide)).2.2.2.2.1⟩

/-- C9 (as stated) fails: after a reveal click and one proximity event, two
attempts to avoid the affirmative choice, the factor is 11/10 and not
1 + 2/10; the proximity event leaves it unchanged. -/
theorem C9_counterexample :
    (run desktop init
      [Event.tryOtherOption Draw.zero, Event.noButtonProximity 1000 Draw.zero]).yesButtonScale
      = 11/10 ∧
    (run desktop init
      [Event.tryOtherOption Draw.zero, Event.noButtonProximity 1000 Draw.zero]).yesButtonScale
      ≠ 1 + 2/10 ∧
    (moveNoButton desktop 1000 Draw.zero init).1.yesButtonScale = init.yesButtonScale := by
  have h1 := (step_hooks desktop (Event.tryOtherOption Draw.zero) init).2.2.2.1
  have h2 := (step_hooks desktop (Event.noButtonProximity 1000 Draw.zero)
    (step desktop (Event.tryOtherOption Draw.zero) init)).2.2.2.1
  have h3 : (moveNoButton desktop 1000 Draw.zero init).1.yesButtonScale =
      init.yesButtonScale := by
    obtain ⟨ds, a, hs⟩ := moveNoButton_spec desktop 1000 Draw.zero init
    simp [hs]
  have hv : (run desktop init
      [Event.tryOtherOption Draw.zero, Event.noButtonProximity 1000 Draw.zero]).yesButtonScale
      = 11/10 := by
    simp only [run]
    rw [h2, h1]
    norm_num [init]
  refine ⟨hv, ?_, h3⟩
  rw [hv]
  norm_num

/-- C10 (as stated) fails: the initial state is reachable and its
`noButtonPosition` is (50%, 50%), which is not an entry of `safePositions`. -/
theorem C10_counterexample :
    Reachable desktop init ∧
    init.noButtonPosition = some ⟨"50%", "50%"⟩ ∧
    (⟨"50%", "50%"⟩ : Position) ∉ safePositions ∧
    ¬ ∃ p, p ∈ safePositions ∧ init.noButtonPosition = some p := by
  refine ⟨Reachable.init, rfl, by decide, ?_⟩
  rintro ⟨p, hp, h⟩
  have hp2 : p = ⟨"50%", "50%"⟩ := by
    have := Option.some.inj h
    exact this.symm
  rw [hp2] at hp
  exact absurd hp (by decide)

theorem C10_witness :
    Reachable desktop (step desktop (Event.tryOtherOption Draw.half) init) ∧
    (step desktop (Event.tryOtherOption Draw.half) init).showNoButton = true ∧
    ∃ p, p ∈ safePositions ∧
      (step desktop (Event.tryOtherOption Draw.half) init).noButtonPosition = some p :=
  have hr : Reachable desktop (step desktop (Event.tryOtherOption Draw.half) init) :=
    Reachable.step (Event.tryOtherOption Draw.half) init Reachable.init
      (by unfold Event.drawOk; decide)
  have hs : (step desktop (Event.tryOtherOption Draw.half) init).showNoButton = true :=
    (step_hooks desktop (Event.tryOtherOption Draw.half) init).1
  ⟨hr, hs, (C10_shown_position_is_safe desktop _ hr).1 hs⟩

end Valentine
